import Mathlib

/-!
Verification development for the Validana processor (Coinversable/validana-processor).

The definitions below are a shallow embedding of the block-mining tick of
src/processor.ts (class Processor, method mineBlock) together with the
supervisor logic of src/index.ts.  External library calls from
validana-core (contract execution via processTx, cryptographic signing and
hashing, string sanitisation) are modelled as abstract inputs or, where the
spec pins their behaviour down, as definitions marked as modelled from the
spec.  Machine integers are modelled as Int/Nat: all the quantities involved
(timestamps in milliseconds, byte sizes, counters) stay far below 2^53 in the
source, which uses ordinary JS numbers, so no overflow modelling is needed.
-/

namespace Validana

/-- Result of `processTx` (validana-core) for one transaction: the sum type
the mining loop branches on (`processResult.status` in mineBlock). -/
inductive ExecStatus
  | accepted
  | rejected
  | v1Rejected
  | invalid
  | retry
deriving DecidableEq, Repr

/-- What happened to one fetched transaction when the loop handled it:
either `new Transaction(unprocessedTx)` threw (parse/structure failure,
caught in mineBlock), or it was executed by `processTx` with some result.
Messages are kept as lists of UTF-16 code units (JS strings). -/
inductive TxOutcome
  | parseFail (msg : List Nat)
  | executed (res : ExecStatus) (msg : List Nat)
deriving DecidableEq, Repr

/-- One row returned by `getNewTxsQuery`, together with the (external)
outcome of handling it and the value `Date.now()` returns at the
end-of-iteration time check for this transaction.  The payload is the
`payload::text` JSON string, a JS string kept as its UTF-16 code units (its
`.length` counts code units; its packed form is UTF-8 bytes). -/
structure PendingTx where
  txId : Nat
  createTs : Int
  payload : List Nat
  outcome : TxOutcome
  nowAfter : Int
deriving DecidableEq, Repr

/-- The terminal status written into `unprocessedTx.status` by mineBlock
(TxStatus.Accepted / Rejected / Invalid or the sentinel "retry"). -/
inductive TermStatus
  | accepted
  | rejected
  | invalid
  | retry
deriving DecidableEq, Repr

/-- mineBlock line `unprocessedTx.status = processResult.status === "v1Rejected" ?
TxStatus.Rejected : processResult.status`, with parse failures mapped to
Invalid in the catch block. -/
def statusOf : TxOutcome → TermStatus
  | .parseFail _ => .invalid
  | .executed .accepted _ => .accepted
  | .executed .rejected _ => .rejected
  | .executed .v1Rejected _ => .rejected
  | .executed .invalid _ => .invalid
  | .executed .retry _ => .retry

/-- mineBlock condition for adding a transaction to the block:
`processResult.status === "accepted" || processResult.status === "v1Rejected" ||
(processResult.status === "rejected" && !this.config.VPROC_EXCLUDEREJECTED)`.
A transaction whose constructor threw never reaches this test. -/
def addedToBlockB (excludeRejected : Bool) : TxOutcome → Bool
  | .parseFail _ => false
  | .executed res _ =>
      res == .accepted || res == .v1Rejected || (res == .rejected && !excludeRejected)

/-- The message attached to the transaction by mineBlock before sanitisation
(`error.message` in the catch block, `processResult.message` otherwise). -/
def msgOf : TxOutcome → List Nat
  | .parseFail m => m
  | .executed _ m => m

/-- Entry of the `processedTxs` array: the transaction, the status stored on
it, and whether `addedToBlock` was set. -/
structure Entry where
  tx : PendingTx
  status : TermStatus
  added : Bool
deriving DecidableEq, Repr

/-- Mutable state of the per-transaction loop of mineBlock: `currentBlockTxs`,
`currentBlockSize`, `processedTxs`, plus the list of transactions the loop
actually handled (those not cut off by the size or time break). -/
structure LoopState where
  blockTxs : List PendingTx
  blockSize : Nat
  processed : List Entry
  consumed : List PendingTx
deriving DecidableEq, Repr

/-- Static inputs of one tick of mineBlock. -/
structure Cfg where
  transactionsPerBlock : Nat
  maxBlockSize : Nat
  minBlockInterval : Nat
  blockInterval : Nat
  excludeRejected : Bool
  txEmptyLength : Nat
  blockEmptyLength : Nat
deriving DecidableEq, Repr

/-- The per-transaction loop of mineBlock (`for (const unprocessedTx of
unprocessedTxs)`): stop when the next transaction would push
`currentBlockSize` past VPROC_MAXBLOCKSIZE — the loop charges
`unprocessedTx.payload.length + Transaction.emptyLength`, where
`payload.length` is the JS string length in UTF-16 code units, not the
packed UTF-8 byte count; on a constructor throw record
Invalid and `continue` (skipping the time check); otherwise record the
execution result, add to the block when accepted / v1Rejected / included
rejected, push onto `processedTxs` unless the result is retry, and stop after
this transaction when `Date.now() - 100` exceeds
`previousBlockTs + (VPROC_MINBLOCKINTERVAL + VPROC_BLOCKINTERVAL) * 1000`. -/
def mineLoop (cfg : Cfg) (previousBlockTs : Int) :
    List PendingTx → LoopState → LoopState
  | [], st => st
  | tx :: rest, st =>
    if cfg.maxBlockSize < st.blockSize + tx.payload.length + cfg.txEmptyLength then
      st
    else
      match tx.outcome with
      | .parseFail _ =>
          mineLoop cfg previousBlockTs rest
            { st with
              processed := st.processed ++ [⟨tx, .invalid, false⟩],
              consumed := st.consumed ++ [tx] }
      | .executed _ _ =>
          let added := addedToBlockB cfg.excludeRejected tx.outcome
          let status := statusOf tx.outcome
          let st' : LoopState :=
            { blockTxs := if added then st.blockTxs ++ [tx] else st.blockTxs,
              blockSize :=
                if added then st.blockSize + tx.payload.length + cfg.txEmptyLength
                else st.blockSize,
              processed :=
                if status = .retry then st.processed
                else st.processed ++ [⟨tx, status, added⟩],
              consumed := st.consumed ++ [tx] }
          if previousBlockTs + (cfg.minBlockInterval + cfg.blockInterval) * 1000 <
              tx.nowAfter - 100 then
            st'
          else
            mineLoop cfg previousBlockTs rest st'

/-- Initial loop state: `currentBlockTxs = []`, `currentBlockSize =
Block.emptyLength`, `processedTxs = []`. -/
def initLoopState (cfg : Cfg) : LoopState :=
  { blockTxs := [], blockSize := cfg.blockEmptyLength, processed := [], consumed := [] }

/-- JS `String.prototype.slice(0, n)` on a string viewed as UTF-16 code
units. -/
def jsSlice (s : List Nat) (n : Nat) : List Nat := s.take n

/-- Modelled from the spec: `Crypto.makeUtf8Postgres` (validana-core, not part
of this repository) sanitises a string for postgres by dropping characters
postgres cannot store (null characters and invalid sequences), keeping all
other characters unchanged. -/
def makeUtf8Postgres (s : List Nat) : List Nat := s.filter (fun c => c ≠ 0)

/-- The message stored with a terminalised transaction:
`Crypto.makeUtf8Postgres(message.slice(0, 128))` in mineBlock. -/
def storedMessage (msg : List Nat) : List Nat := makeUtf8Postgres (jsSlice msg 128)

/-- Number of UTF-8 bytes needed for one UTF-16 code unit (basic-plane
characters need at most 3 bytes; each half of a surrogate pair contributes at
most 3 under this bound while the actual pair needs 4). -/
def utf8UnitBytes (c : Nat) : Nat :=
  if c < 0x80 then 1 else if c < 0x800 then 2 else 3

/-- UTF-8 byte length of a string given as UTF-16 code units. -/
def utf8ByteLength (s : List Nat) : Nat := (s.map utf8UnitBytes).sum

/-- One row of the `toInsert` array handed to `updateTransactionsQuery`. -/
structure TxRow where
  txId : Nat
  status : TermStatus
  message : List Nat
  processedTs : Int
  blockId : Option Nat
  posInBlock : Option Nat
deriving DecidableEq, Repr

/-- The `map` building `toInsert`, carrying the `positionInBlock` counter:
rows with `addedToBlock === true` get `block_id = currentBlockId` and
`position_in_block = positionInBlock++`; all others get undefined (NULL). -/
def buildRowsAux (blockId : Nat) (ts : Int) (pos : Nat) : List Entry → List TxRow
  | [] => []
  | e :: rest =>
    if e.added then
      { txId := e.tx.txId, status := e.status,
        message := storedMessage (msgOf e.tx.outcome), processedTs := ts,
        blockId := some blockId, posInBlock := some pos }
        :: buildRowsAux blockId ts (pos + 1) rest
    else
      { txId := e.tx.txId, status := e.status,
        message := storedMessage (msgOf e.tx.outcome), processedTs := ts,
        blockId := none, posInBlock := none }
        :: buildRowsAux blockId ts pos rest

/-- `toInsert`: `processedTxs.filter((tx) => tx.status !== "retry").map(...)`
with the position counter starting at 0. -/
def buildRows (blockId : Nat) (ts : Int) (entries : List Entry) : List TxRow :=
  buildRowsAux blockId ts 0 (entries.filter (fun e => e.status ≠ .retry))

/-- The mutable fields of the Processor that the mining tick touches
(failures, justConnected, isMining, shouldRollback, timeWarning,
minedFirstBlock, previousBlockHash, previousBlockTs, currentBlockId).  The
block hash is kept abstract as a list of bytes. -/
structure MinerState where
  failures : Nat
  justConnected : Bool
  isMining : Bool
  shouldRollback : Bool
  timeWarning : Bool
  minedFirstBlock : Bool
  previousBlockHash : List Nat
  previousBlockTs : Int
  currentBlockId : Nat
deriving DecidableEq, Repr

/-- `abortMining(reason, rollback, error, wasStillMining)`: sets
`isMining = wasStillMining`, ors `shouldRollback` with `rollback`, and when a
reason is given increments `failures` and logs a warning. -/
def abortMining (s : MinerState) (reason : Option (List Nat)) (rollback : Bool)
    (wasStillMining : Bool) : MinerState :=
  { s with
    isMining := wasStillMining,
    shouldRollback := s.shouldRollback || rollback,
    failures := if reason.isSome then s.failures + 1 else s.failures }

/-- How an invocation of mineBlock leaves its guard section: skipped by the
pacing gate, skipped because a previous tick is still mining, or proceeding
to database work. -/
inductive EntryOutcome
  | pacingSkip
  | heavyLoadSkip
  | proceed
deriving DecidableEq, Repr

/-- The guard section at the top of mineBlock: the pacing gate
`previousBlockTs + VPROC_MINBLOCKINTERVAL * 1000 > Date.now() + 500` returns
via `abortMining(undefined, false)`; then the reentry gate returns via
`abortMining("Processor under heavy load...", false, undefined, true)` when
`isMining` is set; otherwise `isMining` is set and the tick proceeds.  The
heavy-load reason is represented by code-unit 104. -/
def mineBlockEntry (minBlockInterval : Nat) (s : MinerState) (now : Int) :
    MinerState × EntryOutcome :=
  if s.previousBlockTs + minBlockInterval * 1000 > now + 500 then
    (abortMining s none false false, .pacingSkip)
  else if s.isMining then
    (abortMining s (some [104]) false true, .heavyLoadSkip)
  else
    ({ s with isMining := true }, .proceed)

/-- The block-timestamp computation of mineBlock: `currentBlockTs =
Date.now()`; when it is `<= previousBlockTs` warn once (edge-triggered on
`timeWarning`) and bump to `previousBlockTs + 1`, otherwise clear
`timeWarning`.  Returns (currentBlockTs, new timeWarning, whether the warning
fired this tick). -/
def computeBlockTs (now previousBlockTs : Int) (timeWarning : Bool) :
    Int × Bool × Bool :=
  if now ≤ previousBlockTs then
    (previousBlockTs + 1, true, !timeWarning)
  else
    (now, false, false)

/-- Number of time warnings fired over a run of ticks, each tick given as
(now, previousBlockTs), threading the `timeWarning` flag. -/
def warningsInRun (w : Bool) : List (Int × Int) → Nat
  | [] => 0
  | (now, prev) :: rest =>
      let r := computeBlockTs now prev w
      (if r.2.2 then 1 else 0) + warningsInRun r.2.1 rest

/-- The block-or-no-block decision of mineBlock, written exactly as the
negation of the skip condition `currentBlockTxs.length === 0 &&
this.previousBlockTs !== 0 && this.previousBlockTs +
(VPROC_MINBLOCKINTERVAL + VPROC_BLOCKINTERVAL) * 1000 > Date.now() + 500`. -/
def needsBlock (blockTxsLen : Nat) (previousBlockTs : Int)
    (minBlockInterval blockInterval : Nat) (now2 : Int) : Bool :=
  !(blockTxsLen == 0 && previousBlockTs != 0 &&
    previousBlockTs + (minBlockInterval + blockInterval) * 1000 > now2 + 500)

/-- Externally visible effects of the tail of a tick. -/
structure TickEffects where
  blockInserted : Bool
  committed : Bool
  notified : Bool
deriving DecidableEq, Repr

/-- The tail of mineBlock after the bulk status update: when no block is
needed, COMMIT (unless `Basic.isShuttingDown`) and NOTIFY when `toInsert` was
non-empty; when a block is needed, INSERT the block, COMMIT with synchronous
commit on (unless shutting down), NOTIFY, and advance the in-memory tip
(previousBlockHash, previousBlockTs, currentBlockId++, minedFirstBlock).
Both branches then reset failures, justConnected and isMining. -/
def finishTick (s : MinerState) (blockTxsLen toInsertLen : Nat)
    (blockTs now2 : Int) (minBlockInterval blockInterval : Nat)
    (shuttingDown : Bool) (newBlockHash : List Nat) : MinerState × TickEffects :=
  if needsBlock blockTxsLen s.previousBlockTs minBlockInterval blockInterval now2 then
    ({ s with
        previousBlockHash := newBlockHash,
        previousBlockTs := blockTs,
        currentBlockId := s.currentBlockId + 1,
        minedFirstBlock := true,
        failures := 0, justConnected := false, isMining := false },
     { blockInserted := true, committed := !shuttingDown, notified := true })
  else
    ({ s with failures := 0, justConnected := false, isMining := false },
     { blockInserted := false, committed := !shuttingDown,
       notified := decide (0 < toInsertLen) })

/-- Outcome of the postgres-version startup check of mineBlock. -/
inductive VersionOutcome
  | shutdown (code : Nat)
  | proceed (warnNewVersion : Bool)
deriving DecidableEq, Repr

/-- The startup check run on a just-connected tick:
`Number.parseInt(current_setting, 10)` is modelled as an `Option Int` (none
for NaN); NaN or a version below 90500 shuts the worker down with exit code
52, otherwise the tick proceeds (warning once for version 12+). -/
def checkPostgresVersion (parsed : Option Int) (warnedBefore : Bool) :
    VersionOutcome :=
  match parsed with
  | none => .shutdown 52
  | some v =>
      if v < 90500 then .shutdown 52
      else .proceed (decide (120000 ≤ v) && !warnedBefore)

/-- Whether mineBlock runs the version check at all: it sits inside
`if (this.justConnected)`. -/
def versionCheckRuns (justConnected : Bool) : Bool := justConnected

/-- What the master does when a worker exits (src/index.ts, the
`Cluster.on("exit")` handler): exit codes in [50,60) log fatal and shut the
master down; otherwise the worker is restarted after 1 second unless the
master is shutting down. -/
inductive MasterAction
  | shutdownMaster
  | restartWorker
  | noRestart
deriving DecidableEq, Repr

/-- The body of the exit handler in setupMaster. -/
def handleWorkerExit (code : Nat) (isShuttingDown : Bool) : MasterAction :=
  if code ≠ 0 ∧ 50 ≤ code ∧ code < 60 then .shutdownMaster
  else if !isShuttingDown then .restartWorker
  else .noRestart

/-! ### Database model for crash atomicity

Durable state is what a reader of the database (or the processor after a
restart) sees.  The open transaction of a tick is a pending copy; COMMIT
publishes it, a crash or ROLLBACK discards it.  Savepoints snapshot the
pending copy. -/

/-- One row of basics.blocks as far as the claims need it. -/
structure BlockRecord where
  blockId : Nat
  processedTs : Int
  txsAmount : Nat
deriving DecidableEq, Repr

/-- Durable database state: the transactions table, the blocks table, and an
abstract component standing for the public-schema tables the smart contracts
write. -/
structure DurableState where
  txTable : List TxRow
  blockTable : List BlockRecord
  contractSchema : Nat
deriving DecidableEq, Repr

/-- `updateTransactionsQuery`: every row of the table whose transaction_id
appears in `toInsert` is overwritten with the corresponding update row. -/
def applyBulkUpdate (toInsert : List TxRow) (table : List TxRow) : List TxRow :=
  table.map (fun row =>
    match toInsert.find? (fun u => u.txId == row.txId) with
    | some u => u
    | none => row)

/-- A database operation as issued by one tick, at the granularity the
atomicity claim needs: reads (SELECT, SET, RESET ROLE, NOTIFY) do not change
state; writes (contract side effects, the bulk status update, the block
INSERT) act on the pending copy; BEGIN/SAVEPOINT/ROLLBACK and COMMIT move
state between the durable and pending copies. -/
inductive DBOp
  | read
  | beginTx
  | write (w : DurableState → DurableState)
  | savepointSet
  | savepointRollback
  | commit
  | rollbackAll

/-- A connection: the durable state, the pending state the open transaction
sees, and the last savepoint snapshot. -/
structure DBConn where
  durable : DurableState
  pending : DurableState
  savept : DurableState

def applyOp (c : DBConn) : DBOp → DBConn
  | .read => c
  | .beginTx => { c with pending := c.durable, savept := c.durable }
  | .write w => { c with pending := w c.pending }
  | .savepointSet => { c with savept := c.pending }
  | .savepointRollback => { c with pending := c.savept }
  | .commit => { c with durable := c.pending }
  | .rollbackAll => { c with pending := c.durable, savept := c.durable }

def runOps (c : DBConn) (ops : List DBOp) : DBConn := ops.foldl applyOp c

def isCommit : DBOp → Bool
  | .commit => true
  | _ => false

/-- The database operations mineBlock issues for one handled transaction:
the contract execution of `processTx` (writes to the contract schema,
buffered in the open transaction), then `ROLLBACK TO SAVEPOINT` when the
result is neither accepted nor v1Rejected, or `RELEASE SAVEPOINT; SAVEPOINT`
when it is.  A transaction whose constructor threw issues no queries. -/
def perTxOps (effect : PendingTx → Nat → Nat) (tx : PendingTx) : List DBOp :=
  match tx.outcome with
  | .parseFail _ => []
  | .executed res _ =>
      [DBOp.write (fun d => { d with contractSchema := effect tx d.contractSchema })] ++
      (if res = .accepted ∨ res = .v1Rejected then [DBOp.savepointSet]
       else [DBOp.savepointRollback])

/-- All per-tick inputs of mineBlock that the database-operation trace
depends on. -/
structure TickInput where
  shouldRollback : Bool
  justConnected : Bool
  shuttingDown : Bool
  previousBlockTs : Int
  currentBlockId : Nat
  blockTs : Int
  now2 : Int
  rows : List PendingTx
  effect : PendingTx → Nat → Nat

/-- The sequence of database operations of one full tick of mineBlock, in
source order: the recovery ROLLBACK and contract reload (when shouldRollback
or justConnected), the startup reads (when justConnected: version, previous
block, statement_timeout), the pending fetch, `BEGIN; SET LOCAL ROLE
smartcontract; SAVEPOINT`, the per-transaction operations, `RESET ROLE;`,
the bulk status update (when toInsert is non-empty), and then either the
status-only COMMIT plus NOTIFY or the block INSERT, durable COMMIT and
NOTIFY — each COMMIT skipped when shutting down. -/
def tickOps (cfg : Cfg) (inp : TickInput) : List DBOp :=
  let st := mineLoop cfg inp.previousBlockTs inp.rows (initLoopState cfg)
  let toInsert := buildRows inp.currentBlockId inp.blockTs st.processed
  (if inp.shouldRollback || inp.justConnected then [DBOp.rollbackAll, DBOp.read] else [])
  ++ (if inp.justConnected then [DBOp.read, DBOp.read, DBOp.read] else [])
  ++ [DBOp.read]
  ++ [DBOp.beginTx, DBOp.savepointSet]
  ++ st.consumed.flatMap (perTxOps inp.effect)
  ++ [DBOp.read]
  ++ (if toInsert.isEmpty then []
      else [DBOp.write (fun d => { d with txTable := applyBulkUpdate toInsert d.txTable })])
  ++ (if needsBlock st.blockTxs.length inp.previousBlockTs cfg.minBlockInterval
        cfg.blockInterval inp.now2 then
        [DBOp.write (fun d =>
          { d with blockTable := d.blockTable ++
              [{ blockId := inp.currentBlockId, processedTs := inp.blockTs,
                 txsAmount := st.blockTxs.length }] })]
        ++ (if inp.shuttingDown then [] else [DBOp.commit])
        ++ [DBOp.read]
      else
        (if inp.shuttingDown then [] else [DBOp.commit])
        ++ (if toInsert.isEmpty then [] else [DBOp.read]))

/-! ### Characterisation of the per-transaction loop -/

/-- The size mineBlock charges against VPROC_MAXBLOCKSIZE for one
transaction: `unprocessedTx.payload.length + Transaction.emptyLength`.
`payload.length` is the JS string length — UTF-16 code units — while
`Transaction.emptyLength` is a byte count. -/
def txChargedSize (cfg : Cfg) (tx : PendingTx) : Nat :=
  tx.payload.length + cfg.txEmptyLength

/-- The actual packed size of one transaction in bytes: the payload is
stored UTF-8 encoded inside the packed transaction, plus the fixed
per-transaction overhead.  This differs from `txChargedSize` whenever the
payload contains non-ASCII characters. -/
def txPackedSize (cfg : Cfg) (tx : PendingTx) : Nat :=
  utf8ByteLength tx.payload + cfg.txEmptyLength

/-- The loop's size accounting over a list of admitted transactions. -/
def sizeSum (cfg : Cfg) (l : List PendingTx) : Nat :=
  (l.map (txChargedSize cfg)).sum

/-- The packed byte size of a block holding the given transactions: the
fixed block overhead plus each transaction's packed encoding. -/
def packedBlockSize (cfg : Cfg) (txs : List PendingTx) : Nat :=
  cfg.blockEmptyLength + (txs.map (txPackedSize cfg)).sum

/-- The `processedTxs` entry a handled transaction produces, if any (retry
transactions produce none). -/
def entryOf (excludeRejected : Bool) (tx : PendingTx) : Option Entry :=
  if statusOf tx.outcome = .retry then none
  else some ⟨tx, statusOf tx.outcome, addedToBlockB excludeRejected tx.outcome⟩

/-- Whether a handled transaction is added to the block. -/
def addedPred (excludeRejected : Bool) (tx : PendingTx) : Bool :=
  addedToBlockB excludeRejected tx.outcome

/-- The admission condition exactly as the specification words it: the
execution result is Accepted, V1Rejected, or Rejected while
VPROC_EXCLUDEREJECTED is false. -/
def specAdded (excludeRejected : Bool) (tx : PendingTx) : Prop :=
  (∃ m, tx.outcome = .executed .accepted m) ∨
  (∃ m, tx.outcome = .executed .v1Rejected m) ∨
  (excludeRejected = false ∧ ∃ m, tx.outcome = .executed .rejected m)

/-- The transaction's execution result was Retry. -/
def isRetryTx (tx : PendingTx) : Prop := ∃ m, tx.outcome = .executed .retry m

/-- The ordering the specification claims for consumption: create_ts
ascending with ties broken by transaction_id ascending. -/
def specLexLe (a b : PendingTx) : Prop :=
  a.createTs < b.createTs ∨ (a.createTs = b.createTs ∧ a.txId ≤ b.txId)

/-- The only ordering the fetch query guarantees (ORDER BY create_ts). -/
def createTsLe (a b : PendingTx) : Prop := a.createTs ≤ b.createTs

instance : DecidableRel specLexLe := fun a b =>
  inferInstanceAs (Decidable (a.createTs < b.createTs ∨
    (a.createTs = b.createTs ∧ a.txId ≤ b.txId)))

instance : DecidableRel createTsLe := fun a b =>
  inferInstanceAs (Decidable (a.createTs ≤ b.createTs))

/-- A configuration with the default values of config.ts
(TRANSACTIONSPERBLOCK 100, MAXBLOCKSIZE 1000000, MINBLOCKINTERVAL 5,
BLOCKINTERVAL 60, EXCLUDEREJECTED false) and representative packed-size
constants. -/
def cfg0 : Cfg :=
  { transactionsPerBlock := 100, maxBlockSize := 1000000, minBlockInterval := 5,
    blockInterval := 60, excludeRejected := false, txEmptyLength := 158,
    blockEmptyLength := 115 }

/-- Two accepted pending transactions sharing the same create_ts, returned by
the database with the larger transaction_id first — an order the fetch query
permits, since it orders by create_ts alone. -/
def tieRows : List PendingTx :=
  [{ txId := 2, createTs := 5, payload := List.replicate 10 97,
     outcome := .executed .accepted [79, 75], nowAfter := 1000 },
   { txId := 1, createTs := 5, payload := List.replicate 10 97,
     outcome := .executed .accepted [79, 75], nowAfter := 1000 }]

/-- An all-zero 32-byte hash (the genesis previous-block hash). -/
def zeroHash : List Nat := List.replicate 32 0

/-- A concrete processor state in the middle of a long-running tick:
isMining is set and the last block was mined at t = 1000000. -/
def busyState : MinerState :=
  { failures := 0, justConnected := false, isMining := true, shouldRollback := false,
    timeWarning := false, minedFirstBlock := true, previousBlockHash := zeroHash,
    previousBlockTs := 1000000, currentBlockId := 3 }

/-- The same state with a long-past previous block, so the pacing gate does
not trigger. -/
def busyStateLowTs : MinerState := { busyState with previousBlockTs := 0 }

/-- A concrete genesis-like state: no previous block. -/
def genesisState : MinerState :=
  { busyState with
    isMining := false,
    previousBlockTs := 0,
    currentBlockId := 0,
    minedFirstBlock := false }

/-- A concrete accepted transaction whose contract message is 128 copies of
the character U+00E9, each of which is 2 UTF-8 bytes. -/
def wideMsgTx : PendingTx :=
  { txId := 1, createTs := 0, payload := List.replicate 10 97,
    outcome := .executed .accepted (List.replicate 128 233), nowAfter := 1000 }

/-- A payload JSON of 999000 copies of U+00E9: 999000 UTF-16 code units but
1998000 UTF-8 bytes. -/
def overweightPayload : List Nat := List.replicate 999000 233

/-- An accepted pending transaction carrying `overweightPayload`. -/
def overweightTx : PendingTx :=
  { txId := 9, createTs := 0, payload := overweightPayload,
    outcome := .executed .accepted [79, 75], nowAfter := 1000 }

theorem mineLoop_characterization (cfg : Cfg) (prev : Int) :
    ∀ (rows : List PendingTx) (st : LoopState), ∃ k : Nat,
      (mineLoop cfg prev rows st).consumed = st.consumed ++ rows.take k ∧
      (mineLoop cfg prev rows st).processed =
        st.processed ++ (rows.take k).filterMap (entryOf cfg.excludeRejected) ∧
      (mineLoop cfg prev rows st).blockTxs =
        st.blockTxs ++ (rows.take k).filter (addedPred cfg.excludeRejected) ∧
      (mineLoop cfg prev rows st).blockSize =
        st.blockSize + sizeSum cfg ((rows.take k).filter (addedPred cfg.excludeRejected)) := by
  intro rows
  induction rows with
  | nil =>
      intro st
      exact ⟨0, by simp [mineLoop, sizeSum]⟩
  | cons tx rest ih =>
      intro st
      by_cases hsz : cfg.maxBlockSize < st.blockSize + tx.payload.length + cfg.txEmptyLength
      · refine ⟨0, ?_⟩
        simp [mineLoop, hsz, sizeSum]
      · cases hout : tx.outcome with
        | parseFail m =>
            have hrun : mineLoop cfg prev (tx :: rest) st =
                mineLoop cfg prev rest
                  { st with
                    processed := st.processed ++ [⟨tx, .invalid, false⟩],
                    consumed := st.consumed ++ [tx] } := by
              simp [mineLoop, hsz, hout]
            obtain ⟨k, hc, hp, hb, hs⟩ :=
              ih { st with
                    processed := st.processed ++ [⟨tx, .invalid, false⟩],
                    consumed := st.consumed ++ [tx] }
            refine ⟨k + 1, ?_, ?_, ?_, ?_⟩
            · rw [hrun, hc, List.take_succ_cons]
              simp
            · rw [hrun, hp, List.take_succ_cons]
              simp [List.filterMap_cons, entryOf, statusOf, hout, addedToBlockB]
            · rw [hrun, hb, List.take_succ_cons]
              simp [List.filter_cons, addedPred, addedToBlockB, hout]
            · rw [hrun, hs, List.take_succ_cons]
              simp [List.filter_cons, addedPred, addedToBlockB, hout, sizeSum]
        | executed res m =>
            set st' : LoopState :=
              { blockTxs :=
                  if addedToBlockB cfg.excludeRejected tx.outcome then st.blockTxs ++ [tx]
                  else st.blockTxs,
                blockSize :=
                  if addedToBlockB cfg.excludeRejected tx.outcome then
                    st.blockSize + tx.payload.length + cfg.txEmptyLength
                  else st.blockSize,
                processed :=
                  if statusOf tx.outcome = .retry then st.processed
                  else st.processed ++ [⟨tx, statusOf tx.outcome,
                    addedToBlockB cfg.excludeRejected tx.outcome⟩],
                consumed := st.consumed ++ [tx] } with hst'
            have hone :
                st'.consumed = st.consumed ++ [tx] ∧
                st'.processed = st.processed ++ [tx].filterMap (entryOf cfg.excludeRejected) ∧
                st'.blockTxs = st.blockTxs ++ [tx].filter (addedPred cfg.excludeRejected) ∧
                st'.blockSize =
                  st.blockSize + sizeSum cfg ([tx].filter (addedPred cfg.excludeRejected)) := by
              refine ⟨rfl, ?_, ?_, ?_⟩
              · simp only [hst']
                by_cases hr : statusOf tx.outcome = .retry
                · simp [hr, List.filterMap_cons, entryOf]
                · simp [hr, List.filterMap_cons, entryOf]
              · simp only [hst']
                by_cases ha : addedToBlockB cfg.excludeRejected tx.outcome
                · simp [ha, List.filter_cons, addedPred]
                · simp [ha, List.filter_cons, addedPred]
              · simp only [hst']
                by_cases ha : addedToBlockB cfg.excludeRejected tx.outcome
                · simp [ha, List.filter_cons, addedPred, sizeSum, txChargedSize]
                  omega
                · simp [ha, List.filter_cons, addedPred, sizeSum]
            have hrun : mineLoop cfg prev (tx :: rest) st =
                if prev + (cfg.minBlockInterval + cfg.blockInterval) * 1000 <
                    tx.nowAfter - 100 then st'
                else mineLoop cfg prev rest st' := by
              simp only [mineLoop, if_neg hsz, hout]
              rw [hst']
              simp [hout]
            by_cases ht : prev + (cfg.minBlockInterval + cfg.blockInterval) * 1000 <
                tx.nowAfter - 100
            · refine ⟨1, ?_, ?_, ?_, ?_⟩
              all_goals simp only [hrun, if_pos ht, List.take_succ_cons, List.take_zero]
              all_goals first
                | exact hone.1
                | exact hone.2.1
                | exact hone.2.2.1
                | exact hone.2.2.2
            · obtain ⟨k, hc, hp, hb, hs⟩ := ih st'
              refine ⟨k + 1, ?_, ?_, ?_, ?_⟩
              · rw [hrun, if_neg ht, hc, hone.1, List.take_succ_cons]
                simp
              · rw [hrun, if_neg ht, hp, hone.2.1, List.take_succ_cons]
                simp [List.filterMap_cons]
                cases hE : entryOf cfg.excludeRejected tx <;> simp [hE]
              · rw [hrun, if_neg ht, hb, hone.2.2.1, List.take_succ_cons]
                simp [List.filter_cons]
                by_cases ha : addedPred cfg.excludeRejected tx <;> simp [ha]
              · rw [hrun, if_neg ht, hs, hone.2.2.2, List.take_succ_cons]
                simp [List.filter_cons, sizeSum]
                by_cases ha : addedPred cfg.excludeRejected tx <;> (simp [ha]; try ring)

theorem mineLoop_size_le (cfg : Cfg) (prev : Int) :
    ∀ (rows : List PendingTx) (st : LoopState),
      st.blockSize ≤ cfg.maxBlockSize →
      (mineLoop cfg prev rows st).blockSize ≤ cfg.maxBlockSize := by
  intro rows
  induction rows with
  | nil =>
      intro st h
      simpa [mineLoop] using h
  | cons tx rest ih =>
      intro st h
      by_cases hsz : cfg.maxBlockSize < st.blockSize + tx.payload.length + cfg.txEmptyLength
      · simpa [mineLoop, hsz] using h
      · cases hout : tx.outcome with
        | parseFail m =>
            have hrun : mineLoop cfg prev (tx :: rest) st =
                mineLoop cfg prev rest
                  { st with
                    processed := st.processed ++ [⟨tx, .invalid, false⟩],
                    consumed := st.consumed ++ [tx] } := by
              simp [mineLoop, hsz, hout]
            rw [hrun]
            exact ih _ h
        | executed res m =>
            have hle : (if addedToBlockB cfg.excludeRejected tx.outcome then
                st.blockSize + tx.payload.length + cfg.txEmptyLength else st.blockSize) ≤
                cfg.maxBlockSize := by
              by_cases ha : addedToBlockB cfg.excludeRejected tx.outcome <;> simp [ha] <;> omega
            by_cases ht : prev + (cfg.minBlockInterval + cfg.blockInterval) * 1000 <
                tx.nowAfter - 100
            · have hrun : (mineLoop cfg prev (tx :: rest) st).blockSize =
                  (if addedToBlockB cfg.excludeRejected tx.outcome then
                    st.blockSize + tx.payload.length + cfg.txEmptyLength else st.blockSize) := by
                simp [mineLoop, hsz, hout, ht]
              rw [hrun]
              exact hle
            · have hrun : mineLoop cfg prev (tx :: rest) st =
                  mineLoop cfg prev rest
                    { blockTxs :=
                        if addedToBlockB cfg.excludeRejected tx.outcome then st.blockTxs ++ [tx]
                        else st.blockTxs,
                      blockSize :=
                        if addedToBlockB cfg.excludeRejected tx.outcome then
                          st.blockSize + tx.payload.length + cfg.txEmptyLength
                        else st.blockSize,
                      processed :=
                        if statusOf tx.outcome = .retry then st.processed
                        else st.processed ++ [⟨tx, statusOf tx.outcome,
                          addedToBlockB cfg.excludeRejected tx.outcome⟩],
                      consumed := st.consumed ++ [tx] } := by
                simp [mineLoop, hsz, hout, ht]
              rw [hrun]
              exact ih _ hle

/-- All rows built by the toInsert map keep the transaction ids of their
entries, in order. -/
theorem buildRowsAux_ids (blockId : Nat) (ts : Int) :
    ∀ (entries : List Entry) (pos : Nat),
      (buildRowsAux blockId ts pos entries).map (fun r => r.txId) =
        entries.map (fun e => e.tx.txId) := by
  intro entries
  induction entries with
  | nil => intro pos; simp [buildRowsAux]
  | cons e rest ih =>
      intro pos
      by_cases ha : e.added <;> simp [buildRowsAux, ha, ih]

/-- The defined positions among the built rows are consecutive, starting at
the counter value, one per added entry, in list order. -/
theorem buildRowsAux_positions (blockId : Nat) (ts : Int) :
    ∀ (entries : List Entry) (pos : Nat),
      (buildRowsAux blockId ts pos entries).filterMap (fun r => r.posInBlock) =
        List.range' pos (entries.countP (fun e => e.added)) := by
  intro entries
  induction entries with
  | nil => intro pos; simp [buildRowsAux]
  | cons e rest ih =>
      intro pos
      by_cases ha : e.added
      · simp [buildRowsAux, ha, List.filterMap_cons, ih, List.countP_cons, List.range'_succ]
      · simp [buildRowsAux, ha, List.filterMap_cons, ih, List.countP_cons]

/-- Every entry yields a row with its id, status, sanitised message and
timestamp; entries not added to the block get NULL block_id and
position_in_block, added ones get the current block id and a defined
position. -/
theorem buildRowsAux_mem_left (blockId : Nat) (ts : Int) :
    ∀ (entries : List Entry) (pos : Nat), ∀ e ∈ entries,
      ∃ r ∈ buildRowsAux blockId ts pos entries,
        r.txId = e.tx.txId ∧ r.status = e.status ∧
        r.message = storedMessage (msgOf e.tx.outcome) ∧ r.processedTs = ts ∧
        (e.added = true → r.blockId = some blockId ∧ r.posInBlock.isSome) ∧
        (e.added = false → r.blockId = none ∧ r.posInBlock = none) := by
  intro entries
  induction entries with
  | nil => intro pos e he; cases he
  | cons e0 rest ih =>
      intro pos e he
      rcases List.mem_cons.mp he with rfl | hmem
      · by_cases ha : e.added
        · refine ⟨(⟨e.tx.txId, e.status, storedMessage (msgOf e.tx.outcome), ts,
            some blockId, some pos⟩ : TxRow), ?_, ?_⟩
          · simp [buildRowsAux, ha]
          · simp [ha]
        · refine ⟨(⟨e.tx.txId, e.status, storedMessage (msgOf e.tx.outcome), ts,
            none, none⟩ : TxRow), ?_, ?_⟩
          · simp [buildRowsAux, ha]
          · simp [ha]
      · by_cases ha : e0.added
        · obtain ⟨r, hr, hprops⟩ := ih (pos + 1) e hmem
          exact ⟨r, by simp [buildRowsAux, ha, hr], hprops⟩
        · obtain ⟨r, hr, hprops⟩ := ih pos e hmem
          exact ⟨r, by simp [buildRowsAux, ha, hr], hprops⟩

/-- Conversely, every built row takes its id from some entry. -/
theorem buildRowsAux_mem_right (blockId : Nat) (ts : Int) :
    ∀ (entries : List Entry) (pos : Nat), ∀ r ∈ buildRowsAux blockId ts pos entries,
      ∃ e ∈ entries, r.txId = e.tx.txId := by
  intro entries
  induction entries with
  | nil => intro pos r hr; simp [buildRowsAux] at hr
  | cons e0 rest ih =>
      intro pos r hr
      by_cases ha : e0.added
      · simp only [buildRowsAux, if_pos ha, List.mem_cons] at hr
        rcases hr with rfl | hr
        · exact ⟨e0, List.mem_cons_self _ _, rfl⟩
        · obtain ⟨e, he, hid⟩ := ih (pos + 1) r hr
          exact ⟨e, List.mem_cons_of_mem _ he, hid⟩
      · simp only [buildRowsAux, if_neg ha, List.mem_cons] at hr
        rcases hr with rfl | hr
        · exact ⟨e0, List.mem_cons_self _ _, rfl⟩
        · obtain ⟨e, he, hid⟩ := ih pos r hr
          exact ⟨e, List.mem_cons_of_mem _ he, hid⟩

/-- An entry produced by the loop always records the status and
added-to-block decision derived from its transaction's outcome, and never
records retry. -/
theorem mem_filterMap_entryOf (excl : Bool) :
    ∀ (l : List PendingTx) (e : Entry), e ∈ l.filterMap (entryOf excl) →
      e.tx ∈ l ∧ e.status = statusOf e.tx.outcome ∧
      e.added = addedToBlockB excl e.tx.outcome ∧ e.status ≠ .retry := by
  intro l e he
  obtain ⟨tx, htx, hsome⟩ := List.mem_filterMap.mp he
  unfold entryOf at hsome
  by_cases hr : statusOf tx.outcome = .retry
  · simp [hr] at hsome
  · simp only [if_neg hr, Option.some.injEq] at hsome
    subst hsome
    exact ⟨htx, rfl, rfl, hr⟩

/-- A retry transaction produces no entry. -/
theorem entryOf_retry (excl : Bool) (tx : PendingTx) (m : List Nat)
    (h : tx.outcome = .executed .retry m) : entryOf excl tx = none := by
  simp [entryOf, statusOf, h]

/-- A transaction added to the block is never a retry, so the number of
added entries equals the number of added transactions. -/
theorem countP_added_filterMap (excl : Bool) :
    ∀ l : List PendingTx,
      (l.filterMap (entryOf excl)).countP (fun e => e.added) =
        (l.filter (addedPred excl)).length := by
  intro l
  induction l with
  | nil => simp
  | cons tx rest ih =>
      cases hout : tx.outcome with
      | parseFail m =>
          have h1 : entryOf excl tx = some ⟨tx, .invalid, false⟩ := by
            simp [entryOf, statusOf, hout, addedToBlockB]
          have h2 : addedPred excl tx = false := by
            simp [addedPred, addedToBlockB, hout]
          simp [List.filterMap_cons, List.filter_cons, h1, h2, List.countP_cons, ih]
      | executed res m =>
          cases res with
          | accepted =>
              have h1 : entryOf excl tx = some ⟨tx, .accepted, true⟩ := by
                simp [entryOf, statusOf, hout, addedToBlockB]
              have h2 : addedPred excl tx = true := by
                simp [addedPred, addedToBlockB, hout]
              simp [List.filterMap_cons, List.filter_cons, h1, h2, List.countP_cons, ih]
          | v1Rejected =>
              have h1 : entryOf excl tx = some ⟨tx, .rejected, true⟩ := by
                simp [entryOf, statusOf, hout, addedToBlockB]
              have h2 : addedPred excl tx = true := by
                simp [addedPred, addedToBlockB, hout]
              simp [List.filterMap_cons, List.filter_cons, h1, h2, List.countP_cons, ih]
          | rejected =>
              have h1 : entryOf excl tx = some ⟨tx, .rejected, !excl⟩ := by
                simp [entryOf, statusOf, hout, addedToBlockB]
              have h2 : addedPred excl tx = !excl := by
                simp [addedPred, addedToBlockB, hout]
              cases excl <;>
                simp [List.filterMap_cons, List.filter_cons, h1, h2, List.countP_cons, ih]
          | invalid =>
              have h1 : entryOf excl tx = some ⟨tx, .invalid, false⟩ := by
                simp [entryOf, statusOf, hout, addedToBlockB]
              have h2 : addedPred excl tx = false := by
                simp [addedPred, addedToBlockB, hout]
              simp [List.filterMap_cons, List.filter_cons, h1, h2, List.countP_cons, ih]
          | retry =>
              have h1 : entryOf excl tx = none := entryOf_retry excl tx m hout
              have h2 : addedPred excl tx = false := by
                simp [addedPred, addedToBlockB, hout]
              simp [List.filterMap_cons, List.filter_cons, h1, h2, ih]

/-- Entries produced by the loop all survive the retry filter of buildRows. -/
theorem filter_retry_filterMap (excl : Bool) (l : List PendingTx) :
    (l.filterMap (entryOf excl)).filter (fun e => e.status ≠ TermStatus.retry) =
      l.filterMap (entryOf excl) := by
  apply List.filter_eq_self.mpr
  intro e he
  have h := (mem_filterMap_entryOf excl l e he).2.2.2
  simpa using h

/-- In a list with pairwise-distinct transaction ids, an id determines the
element. -/
theorem eq_of_mem_of_txId_eq :
    ∀ (l : List PendingTx), l.Pairwise (fun a b => a.txId ≠ b.txId) →
      ∀ a ∈ l, ∀ b ∈ l, a.txId = b.txId → a = b := by
  intro l
  induction l with
  | nil => intro _ a ha; cases ha
  | cons x rest ih =>
      intro hpw a ha b hb hid
      have hx := List.pairwise_cons.mp hpw
      rcases List.mem_cons.mp ha with rfl | ha2
      · rcases List.mem_cons.mp hb with rfl | hb2
        · rfl
        · exact absurd hid (hx.1 b hb2)
      · rcases List.mem_cons.mp hb with rfl | hb2
        · exact absurd hid.symm (hx.1 a ha2)
        · exact ih hx.2 a ha2 b hb2 hid

/-! ### Atomicity of the database trace -/

theorem applyOp_durable_of_not_commit (c : DBConn) (op : DBOp)
    (h : isCommit op = false) : (applyOp c op).durable = c.durable := by
  cases op <;> simp [applyOp, isCommit] at h ⊢

theorem runOps_durable_of_no_commit :
    ∀ (ops : List DBOp) (c : DBConn), ops.countP isCommit = 0 →
      (runOps c ops).durable = c.durable := by
  intro ops
  induction ops with
  | nil => intro c _; rfl
  | cons op rest ih =>
      intro c h
      rw [List.countP_cons] at h
      have hop : isCommit op = false := by
        cases hoc : isCommit op
        · rfl
        · rw [hoc] at h
          simp at h
      have hrest : rest.countP isCommit = 0 := by
        rw [hop] at h
        simpa using h
      calc (runOps c (op :: rest)).durable
          = (runOps (applyOp c op) rest).durable := rfl
        _ = (applyOp c op).durable := ih _ hrest
        _ = c.durable := applyOp_durable_of_not_commit c op hop

/-- With at most one COMMIT in the trace, the durable state after any prefix
is either the initial durable state or the durable state after the full
trace. -/
theorem runOps_durable_take :
    ∀ (ops : List DBOp) (c : DBConn), ops.countP isCommit ≤ 1 → ∀ k : Nat,
      (runOps c (ops.take k)).durable = c.durable ∨
      (runOps c (ops.take k)).durable = (runOps c ops).durable := by
  intro ops
  induction ops with
  | nil => intro c _ k; left; simp [runOps]
  | cons op rest ih =>
      intro c h k
      cases k with
      | zero => left; simp [runOps]
      | succ k =>
          rw [List.take_succ_cons]
          have hstep : runOps c (op :: rest.take k) = runOps (applyOp c op) (rest.take k) := rfl
          have hfull : runOps c (op :: rest) = runOps (applyOp c op) rest := rfl
          rw [hstep, hfull]
          by_cases hop : isCommit op = true
          · have hrest : rest.countP isCommit = 0 := by
              rw [List.countP_cons_of_pos isCommit rest hop] at h
              omega
            have h1 := runOps_durable_of_no_commit (rest.take k) (applyOp c op)
              (by
                have : (rest.take k).countP isCommit ≤ rest.countP isCommit :=
                  List.Sublist.countP_le isCommit (List.take_sublist k rest)
                omega)
            have h2 := runOps_durable_of_no_commit rest (applyOp c op) hrest
            right
            rw [h1, h2]
          · have hopf : isCommit op = false := by simpa using hop
            have hrest : rest.countP isCommit ≤ 1 := by
              rw [List.countP_cons, hopf] at h
              simpa using h
            have hd : (applyOp c op).durable = c.durable :=
              applyOp_durable_of_not_commit c op hopf
            rcases ih (applyOp c op) hrest k with h1 | h1
            · left; rw [h1, hd]
            · right; exact h1

theorem perTxOps_no_commit (effect : PendingTx → Nat → Nat) (tx : PendingTx) :
    (perTxOps effect tx).countP isCommit = 0 := by
  unfold perTxOps
  cases tx.outcome with
  | parseFail m => simp
  | executed res m =>
      by_cases h : res = ExecStatus.accepted ∨ res = ExecStatus.v1Rejected <;>
        simp [h, isCommit]

theorem flatMap_perTxOps_no_commit (effect : PendingTx → Nat → Nat) :
    ∀ l : List PendingTx, (l.flatMap (perTxOps effect)).countP isCommit = 0 := by
  intro l
  induction l with
  | nil => simp
  | cons tx rest ih =>
      simp [List.flatMap_cons, List.countP_append, ih, perTxOps_no_commit]

/-- Every tick issues at most one COMMIT. -/
theorem tickOps_commit_le_one (cfg : Cfg) (inp : TickInput) :
    (tickOps cfg inp).countP isCommit ≤ 1 := by
  have hflat := flatMap_perTxOps_no_commit inp.effect
    (mineLoop cfg inp.previousBlockTs inp.rows (initLoopState cfg)).consumed
  unfold tickOps
  cases hsr : (inp.shouldRollback || inp.justConnected) <;>
    cases hjc : inp.justConnected <;>
      cases hsd : inp.shuttingDown <;>
        by_cases hti : (buildRows inp.currentBlockId inp.blockTs
            (mineLoop cfg inp.previousBlockTs inp.rows (initLoopState cfg)).processed).isEmpty <;>
          by_cases hnb : needsBlock
              (mineLoop cfg inp.previousBlockTs inp.rows (initLoopState cfg)).blockTxs.length
              inp.previousBlockTs cfg.minBlockInterval cfg.blockInterval inp.now2 <;>
            simp [hsr, hjc, hsd, hti, hnb, isCommit, List.countP_append, List.countP_cons, hflat]

/-! ### Claim theorems -/

/-- Once the time warning has fired, further regressed ticks fire no new
warning while the regression episode lasts. -/
theorem warningsInRun_true_zero :
    ∀ ticks : List (Int × Int), (∀ t ∈ ticks, t.1 ≤ t.2) →
      warningsInRun true ticks = 0 := by
  intro ticks
  induction ticks with
  | nil => intro _; rfl
  | cons t rest ih =>
      intro h
      obtain ⟨n, p⟩ := t
      have ht : n ≤ p := h (n, p) (List.mem_cons_self _ _)
      have hstep : computeBlockTs n p true = (p + 1, true, false) := by
        simp [computeBlockTs, ht]
      simp [warningsInRun, hstep, ih (fun u hu => h u (List.mem_cons_of_mem _ hu))]

/-- C4: a tick that reaches the block-or-no-block decision emits a block iff
at least one transaction was added to the block, or the previous block
timestamp is 0 (genesis forced), or previousBlockTs +
(VPROC_MINBLOCKINTERVAL + VPROC_BLOCKINTERVAL) * 1000 ≤ now + 500ms;
otherwise no block is inserted, the chain tip (previous hash, previous
timestamp, next block id) is unchanged, only the status-only commit happens
(when not shutting down), and NOTIFY fires exactly when the bulk update was
non-empty. -/
theorem block_emission_decision (blockTxsLen toInsertLen : Nat)
    (blockTs now2 : Int) (minI blockI : Nat) (shuttingDown : Bool)
    (newHash : List Nat) (s : MinerState) :
    (needsBlock blockTxsLen s.previousBlockTs minI blockI now2 = true ↔
      0 < blockTxsLen ∨ s.previousBlockTs = 0 ∨
      s.previousBlockTs + (minI + blockI) * 1000 ≤ now2 + 500) ∧
    (needsBlock blockTxsLen s.previousBlockTs minI blockI now2 = true →
      (finishTick s blockTxsLen toInsertLen blockTs now2 minI blockI
        shuttingDown newHash).2.blockInserted = true) ∧
    (needsBlock blockTxsLen s.previousBlockTs minI blockI now2 = false →
      (finishTick s blockTxsLen toInsertLen blockTs now2 minI blockI
        shuttingDown newHash).2.blockInserted = false ∧
      (finishTick s blockTxsLen toInsertLen blockTs now2 minI blockI
        shuttingDown newHash).1.previousBlockHash = s.previousBlockHash ∧
      (finishTick s blockTxsLen toInsertLen blockTs now2 minI blockI
        shuttingDown newHash).1.previousBlockTs = s.previousBlockTs ∧
      (finishTick s blockTxsLen toInsertLen blockTs now2 minI blockI
        shuttingDown newHash).1.currentBlockId = s.currentBlockId ∧
      (finishTick s blockTxsLen toInsertLen blockTs now2 minI blockI
        shuttingDown newHash).2.committed = !shuttingDown ∧
      (finishTick s blockTxsLen toInsertLen blockTs now2 minI blockI
        shuttingDown newHash).2.notified = decide (0 < toInsertLen)) := by
  refine ⟨?_, ?_, ?_⟩
  · simp only [needsBlock, Bool.not_eq_true', Bool.and_eq_false_iff,
      beq_eq_false_iff_ne, bne_eq_false_iff_eq, decide_eq_false_iff_not, not_lt,
      ne_eq]
    omega
  · intro h
    simp [finishTick, h]
  · intro h
    simp [finishTick, h]

/-- C4 witness: with no block transactions, a recent previous block and an
empty bulk update, no block is emitted and the tip stays put. -/
theorem block_emission_decision_witness :
    needsBlock 0 busyState.previousBlockTs 5 60 1000 = false ∧
    (finishTick busyState 0 0 5 1000 5 60 false zeroHash).2.blockInserted = false ∧
    (finishTick busyState 0 0 5 1000 5 60 false zeroHash).1.currentBlockId =
      busyState.currentBlockId ∧
    (finishTick genesisState 0 0 5 1000 5 60 false zeroHash).2.blockInserted = true :=
  ⟨by decide,
   ((block_emission_decision 0 0 5 1000 5 60 false zeroHash busyState).2.2
     (by decide)).1,
   ((block_emission_decision 0 0 5 1000 5 60 false zeroHash busyState).2.2
     (by decide)).2.2.2.1,
   (block_emission_decision 0 0 5 1000 5 60 false zeroHash genesisState).2.1
     (by decide)⟩

/-- C5: the block timestamp is max(now, previousBlockTs + 1), hence strictly
above the previous block's timestamp; the bump warning fires exactly when the
clock regressed and the flag was clear, the flag clears once now >
previousBlockTs again, and over any non-empty all-regressed episode started
with a clear flag the warning fires exactly once. -/
theorem block_timestamp_monotone_and_warning (now prev : Int) (w : Bool) :
    ((computeBlockTs now prev w).1 = max now (prev + 1) ∧
     prev < (computeBlockTs now prev w).1 ∧
     ((computeBlockTs now prev w).2.2 = true ↔ now ≤ prev ∧ w = false) ∧
     (prev < now → (computeBlockTs now prev w).2.1 = false)) ∧
    (∀ ticks : List (Int × Int), ticks ≠ [] → (∀ t ∈ ticks, t.1 ≤ t.2) →
      warningsInRun false ticks = 1) := by
  constructor
  · by_cases h : now ≤ prev
    · have hmax : max now (prev + 1) = prev + 1 := by omega
      refine ⟨by simp [computeBlockTs, h, hmax], by simp [computeBlockTs, h], ?_, ?_⟩
      · cases w <;> simp [computeBlockTs, h]
      · intro hlt; omega
    · have hmax : max now (prev + 1) = now := by omega
      refine ⟨by simp [computeBlockTs, h, hmax], ?_, ?_, ?_⟩
      · simp [computeBlockTs, h]
        omega
      · simp [computeBlockTs, h]
      · intro _
        simp [computeBlockTs, h]
  · intro ticks hne hall
    cases ticks with
    | nil => exact absurd rfl hne
    | cons t rest =>
        obtain ⟨n, p⟩ := t
        have ht : n ≤ p := hall (n, p) (List.mem_cons_self _ _)
        have hstep : computeBlockTs n p false = (p + 1, true, true) := by
          simp [computeBlockTs, ht]
        simp [warningsInRun, hstep,
          warningsInRun_true_zero rest (fun u hu => hall u (List.mem_cons_of_mem _ hu))]

/-- C5 witness: a concrete regression (now 3, previous 7) bumps the
timestamp and fires a single warning over a one-tick episode; a concrete
non-regressed tick leaves the flag clear. -/
theorem block_timestamp_monotone_and_warning_witness :
    (computeBlockTs 7 3 false).2.1 = false ∧ warningsInRun false [(3, 7)] = 1 :=
  ⟨(block_timestamp_monotone_and_warning 7 3 false).1.2.2.2 (by decide),
   (block_timestamp_monotone_and_warning 0 0 false).2 [(3, 7)] (by decide)
     (by decide)⟩

/-- C7 counterexample: invoking mineBlock while isMining is true does NOT
always leave isMining set — when the pacing gate fires first (previous block
newer than the minimum block interval), the invocation returns through
abortMining(undefined, false), which resets isMining to false and records no
failure; at this concrete input the claimed behaviour fails. -/
theorem pacing_gate_clears_mining_flag_counterexample :
    busyState.isMining = true ∧
    (mineBlockEntry 5 busyState 0).2 = EntryOutcome.pacingSkip ∧
    (mineBlockEntry 5 busyState 0).1.isMining = false ∧
    (mineBlockEntry 5 busyState 0).1.failures = busyState.failures := by
  decide

/-- C7 (amended): an invocation of mineBlock that passes the pacing gate
while isMining is already true returns with the heavy-load outcome (no
database work), increments failures (recording the heavy-load condition),
leaves isMining set, and leaves shouldRollback unchanged; an invocation
caught by the pacing gate instead resets isMining to false. -/
theorem reentry_gate_behaviour (minI : Nat) (s : MinerState) (now : Int)
    (hpace : ¬(s.previousBlockTs + minI * 1000 > now + 500))
    (hmine : s.isMining = true) :
    (mineBlockEntry minI s now).2 = EntryOutcome.heavyLoadSkip ∧
    (mineBlockEntry minI s now).1.isMining = true ∧
    (mineBlockEntry minI s now).1.failures = s.failures + 1 ∧
    (mineBlockEntry minI s now).1.shouldRollback = s.shouldRollback := by
  unfold mineBlockEntry
  rw [if_neg hpace, if_pos hmine]
  simp [abortMining, hmine]

/-- C7 witness: concrete reentrant invocation past the pacing gate. -/
theorem reentry_gate_behaviour_witness :
    (mineBlockEntry 0 busyStateLowTs 0).2 = EntryOutcome.heavyLoadSkip ∧
    (mineBlockEntry 0 busyStateLowTs 0).1.isMining = true :=
  ⟨(reentry_gate_behaviour 0 busyStateLowTs 0 (by decide) (by decide)).1,
   (reentry_gate_behaviour 0 busyStateLowTs 0 (by decide) (by decide)).2.1⟩

/-- C8: on a just-connected tick the worker runs the version check; an
unparsable server version or one below 90500 shuts the worker down with exit
code 52, and the master treats any worker exit code in [50,60) as stay-down:
it shuts itself down instead of restarting the worker. -/
theorem postgres_version_gate_and_stay_down :
    (∀ w : Bool, versionCheckRuns true = true ∧
      checkPostgresVersion none w = VersionOutcome.shutdown 52 ∧
      (∀ v : Int, v < 90500 → checkPostgresVersion (some v) w =
        VersionOutcome.shutdown 52)) ∧
    (∀ (code : Nat) (b : Bool), 50 ≤ code → code < 60 →
      handleWorkerExit code b = MasterAction.shutdownMaster) := by
  constructor
  · intro w
    refine ⟨rfl, rfl, ?_⟩
    intro v hv
    simp [checkPostgresVersion, hv]
  · intro code b h1 h2
    have hne : code ≠ 0 := by omega
    unfold handleWorkerExit
    rw [if_pos ⟨hne, h1, h2⟩]

/-- C8 witness: version 90400 (postgres 9.4) exits with code 52 and the
master stays down on exit code 52. -/
theorem postgres_version_gate_and_stay_down_witness :
    checkPostgresVersion (some 90400) false = VersionOutcome.shutdown 52 ∧
    handleWorkerExit 52 false = MasterAction.shutdownMaster :=
  ⟨(postgres_version_gate_and_stay_down.1 false).2.2 90400 (by decide),
   postgres_version_gate_and_stay_down.2 52 false (by decide) (by decide)⟩

set_option maxRecDepth 10000 in
/-- C9 counterexample: a terminalised transaction whose execution message is
128 copies of U+00E9 is stored, after slice(0,128) and sanitisation, as 128
code units occupying 256 UTF-8 bytes — more than the claimed 128-byte bound;
shown on the actual row built for the bulk update. -/
theorem stored_message_bytes_counterexample :
    (buildRows 0 99 (mineLoop cfg0 0 [wideMsgTx] (initLoopState cfg0)).processed).map
        (fun r => r.message) = [storedMessage (List.replicate 128 233)] ∧
    utf8ByteLength (storedMessage (List.replicate 128 233)) = 256 ∧
    ¬ utf8ByteLength (storedMessage (List.replicate 128 233)) ≤ 128 := by
  refine ⟨by decide, by decide, by decide⟩

/-- C9 (amended): the message stored with a terminalised transaction is
capped at 128 UTF-16 code units (the unit of the JS slice and of the
VARCHAR(128) column), which bounds it by 384 UTF-8 bytes, not 128. -/
theorem stored_message_unit_bound (msg : List Nat) :
    (storedMessage msg).length ≤ 128 ∧
    utf8ByteLength (storedMessage msg) ≤ 384 := by
  have hlen : (storedMessage msg).length ≤ 128 := by
    calc (storedMessage msg).length ≤ (jsSlice msg 128).length :=
          List.length_filter_le _ _
      _ ≤ 128 := by simp [jsSlice]
  refine ⟨hlen, ?_⟩
  have hunit : ∀ l : List Nat, utf8ByteLength l ≤ 3 * l.length := by
    intro l
    induction l with
    | nil => simp [utf8ByteLength]
    | cons c rest ih =>
        have hc : utf8UnitBytes c ≤ 3 := by
          unfold utf8UnitBytes
          split
          · omega
          · split <;> omega
        have : utf8ByteLength (c :: rest) = utf8UnitBytes c + utf8ByteLength rest := by
          simp [utf8ByteLength]
        rw [this]
        simp only [List.length_cons]
        omega
  calc utf8ByteLength (storedMessage msg) ≤ 3 * (storedMessage msg).length :=
        hunit _
    _ ≤ 384 := by omega

/-- C10: when the shutting-down flag is set at commit time, the block path
still inserts the block into the open transaction and still notifies, skips
the COMMIT, and still advances the in-memory tip (hash, timestamp, block id)
and resets failures and justConnected — so the tip can move past the last
durably committed block. -/
theorem shutdown_block_path_tip_advance (s : MinerState)
    (blockTxsLen toInsertLen : Nat) (blockTs now2 : Int) (minI blockI : Nat)
    (newHash : List Nat)
    (hblock : needsBlock blockTxsLen s.previousBlockTs minI blockI now2 = true) :
    (finishTick s blockTxsLen toInsertLen blockTs now2 minI blockI true
      newHash).2.committed = false ∧
    (finishTick s blockTxsLen toInsertLen blockTs now2 minI blockI true
      newHash).2.blockInserted = true ∧
    (finishTick s blockTxsLen toInsertLen blockTs now2 minI blockI true
      newHash).2.notified = true ∧
    (finishTick s blockTxsLen toInsertLen blockTs now2 minI blockI true
      newHash).1.previousBlockHash = newHash ∧
    (finishTick s blockTxsLen toInsertLen blockTs now2 minI blockI true
      newHash).1.previousBlockTs = blockTs ∧
    (finishTick s blockTxsLen toInsertLen blockTs now2 minI blockI true
      newHash).1.currentBlockId = s.currentBlockId + 1 ∧
    (finishTick s blockTxsLen toInsertLen blockTs now2 minI blockI true
      newHash).1.failures = 0 ∧
    (finishTick s blockTxsLen toInsertLen blockTs now2 minI blockI true
      newHash).1.justConnected = false := by
  simp [finishTick, hblock]

/-- C10 witness: a genesis-forced block during shutdown advances the tip
without committing. -/
theorem shutdown_block_path_tip_advance_witness :
    (finishTick genesisState 0 0 5 1000 5 60 true zeroHash).2.committed = false ∧
    (finishTick genesisState 0 0 5 1000 5 60 true zeroHash).1.currentBlockId =
      genesisState.currentBlockId + 1 :=
  ⟨(shutdown_block_path_tip_advance genesisState 0 0 5 1000 5 60 zeroHash
      (by decide)).1,
   (shutdown_block_path_tip_advance genesisState 0 0 5 1000 5 60 zeroHash
      (by decide)).2.2.2.2.2.1⟩

/-- A transaction that is not a retry gets one of the three terminal
statuses. -/
theorem statusOf_ne_retry_of_not_retry (tx : PendingTx) (h : ¬ isRetryTx tx) :
    statusOf tx.outcome ≠ TermStatus.retry := by
  cases hout : tx.outcome with
  | parseFail m => simp [statusOf]
  | executed res m =>
      cases res with
      | retry => exact absurd ⟨m, hout⟩ h
      | accepted => simp [statusOf]
      | rejected => simp [statusOf]
      | v1Rejected => simp [statusOf]
      | invalid => simp [statusOf]

/-- The code's admission test agrees with the specification's wording of the
admission condition. -/
theorem addedPred_iff (excl : Bool) (tx : PendingTx) :
    addedPred excl tx = true ↔ specAdded excl tx := by
  cases hout : tx.outcome with
  | parseFail m =>
      simp [addedPred, addedToBlockB, hout, specAdded]
  | executed res m =>
      cases res <;> cases excl <;>
        simp [addedPred, addedToBlockB, hout, specAdded]

/-- C1: for every pending transaction consumed by a tick, it enters the
block iff its execution result is Accepted, V1Rejected, or Rejected with
VPROC_EXCLUDEREJECTED false; a Retry transaction appears in no row of the
bulk update (its status stays new); every other consumed transaction gets
exactly a terminal-status row, and when it was not admitted to the block its
row carries neither block_id nor position_in_block. -/
theorem mineBlock_terminalisation_partition (cfg : Cfg) (prevTs blockTs : Int)
    (blockId : Nat) (rows : List PendingTx)
    (hids : rows.Pairwise (fun a b => a.txId ≠ b.txId)) :
    ∀ tx ∈ (mineLoop cfg prevTs rows (initLoopState cfg)).consumed,
      (tx ∈ (mineLoop cfg prevTs rows (initLoopState cfg)).blockTxs ↔
        specAdded cfg.excludeRejected tx) ∧
      (isRetryTx tx →
        ∀ r ∈ buildRows blockId blockTs
            (mineLoop cfg prevTs rows (initLoopState cfg)).processed,
          r.txId ≠ tx.txId) ∧
      (¬ isRetryTx tx →
        ∃ r ∈ buildRows blockId blockTs
            (mineLoop cfg prevTs rows (initLoopState cfg)).processed,
          r.txId = tx.txId ∧
          (r.status = TermStatus.accepted ∨ r.status = TermStatus.rejected ∨
            r.status = TermStatus.invalid) ∧
          (¬ specAdded cfg.excludeRejected tx →
            r.blockId = none ∧ r.posInBlock = none)) := by
  obtain ⟨k, hc, hp, hb, hs⟩ :=
    mineLoop_characterization cfg prevTs rows (initLoopState cfg)
  simp only [show (initLoopState cfg).consumed = [] from rfl,
    show (initLoopState cfg).processed = [] from rfl,
    show (initLoopState cfg).blockTxs = [] from rfl, List.nil_append] at hc hp hb
  have hpwk : (rows.take k).Pairwise (fun a b => a.txId ≠ b.txId) :=
    hids.sublist (List.take_sublist k rows)
  have hrowsEq : buildRows blockId blockTs
      (mineLoop cfg prevTs rows (initLoopState cfg)).processed =
      buildRowsAux blockId blockTs 0
        ((rows.take k).filterMap (entryOf cfg.excludeRejected)) := by
    rw [hp, buildRows, filter_retry_filterMap]
  intro tx htx
  rw [hc] at htx
  refine ⟨?_, ?_, ?_⟩
  · rw [hb]
    constructor
    · intro hmem
      exact (addedPred_iff _ _).mp (List.mem_filter.mp hmem).2
    · intro hspec
      exact List.mem_filter.mpr ⟨htx, (addedPred_iff _ _).mpr hspec⟩
  · rintro ⟨m, hout⟩ r hr hidEq
    rw [hrowsEq] at hr
    obtain ⟨e, he, hid2⟩ := buildRowsAux_mem_right blockId blockTs _ 0 r hr
    obtain ⟨hetx, hestat, headd, heret⟩ := mem_filterMap_entryOf _ _ e he
    have heq : e.tx = tx :=
      eq_of_mem_of_txId_eq (rows.take k) hpwk e.tx hetx tx htx (by rw [← hid2, hidEq])
    rw [heq] at hestat
    rw [hestat] at heret
    exact heret (by simp [statusOf, hout])
  · intro hnr
    have hsr := statusOf_ne_retry_of_not_retry tx hnr
    have he0 : (⟨tx, statusOf tx.outcome, addedToBlockB cfg.excludeRejected tx.outcome⟩
        : Entry) ∈ (rows.take k).filterMap (entryOf cfg.excludeRejected) := by
      refine List.mem_filterMap.mpr ⟨tx, htx, ?_⟩
      simp [entryOf, hsr]
    obtain ⟨r, hr, hid, hstat, hmsg, hts, haddT, haddF⟩ :=
      buildRowsAux_mem_left blockId blockTs _ 0 _ he0
    refine ⟨r, by rw [hrowsEq]; exact hr, hid, ?_, ?_⟩
    · rw [hstat]
      cases hso : statusOf tx.outcome with
      | accepted => simp
      | rejected => simp
      | invalid => simp
      | retry => exact absurd hso hsr
    · intro hns
      have hadd : addedToBlockB cfg.excludeRejected tx.outcome = false := by
        have := (addedPred_iff cfg.excludeRejected tx).not.mpr hns
        simpa [addedPred] using this
      exact haddF hadd

/-- C1 witness: with two distinct-id accepted transactions, the first
consumed transaction is admitted to the block. -/
theorem mineBlock_terminalisation_partition_witness :
    { txId := 2, createTs := 5, payload := List.replicate 10 97,
      outcome := .executed .accepted [79, 75], nowAfter := 1000 } ∈
      (mineLoop cfg0 0 tieRows (initLoopState cfg0)).blockTxs :=
  ((mineBlock_terminalisation_partition cfg0 0 99 7 tieRows (by decide))
    { txId := 2, createTs := 5, payload := List.replicate 10 97,
      outcome := .executed .accepted [79, 75], nowAfter := 1000 }
    (by decide)).1.mpr (Or.inl ⟨[79, 75], rfl⟩)

/-- C2 counterexample: the fetch query orders by create_ts alone, so the
database may return two equal-create_ts transactions with the larger
transaction_id first; mineBlock consumes them in exactly that order (the
current code has no in-memory secondary sort), assigning position 0 to id 2
and position 1 to id 1 — violating the claimed transaction_id tiebreak. -/
theorem fetch_order_tie_counterexample :
    tieRows.Pairwise createTsLe ∧
    (mineLoop cfg0 0 tieRows (initLoopState cfg0)).blockTxs = tieRows ∧
    ¬ (mineLoop cfg0 0 tieRows (initLoopState cfg0)).blockTxs.Pairwise specLexLe ∧
    (buildRows 7 99 (mineLoop cfg0 0 tieRows (initLoopState cfg0)).processed).map
        (fun r => (r.txId, r.posInBlock)) = [(2, some 0), (1, some 1)] := by
  decide

/-- C2 (amended): a tick consumes a prefix of the fetched rows in fetch
order; the query guarantees create_ts-ascending order only, so the block
transactions are create_ts-ascending with ties left in database order, and
position_in_block assigns 0..n-1 in exactly the consumption order. -/
theorem consumption_order_and_positions (cfg : Cfg) (prevTs blockTs : Int)
    (blockId : Nat) (rows : List PendingTx)
    (hsorted : rows.Pairwise createTsLe) :
    (∃ k, (mineLoop cfg prevTs rows (initLoopState cfg)).consumed = rows.take k) ∧
    (mineLoop cfg prevTs rows (initLoopState cfg)).blockTxs.Pairwise createTsLe ∧
    (buildRows blockId blockTs
        (mineLoop cfg prevTs rows (initLoopState cfg)).processed).filterMap
      (fun r => r.posInBlock) =
      List.range (mineLoop cfg prevTs rows (initLoopState cfg)).blockTxs.length := by
  obtain ⟨k, hc, hp, hb, hs⟩ :=
    mineLoop_characterization cfg prevTs rows (initLoopState cfg)
  simp only [show (initLoopState cfg).consumed = [] from rfl,
    show (initLoopState cfg).processed = [] from rfl,
    show (initLoopState cfg).blockTxs = [] from rfl, List.nil_append] at hc hp hb
  refine ⟨⟨k, hc⟩, ?_, ?_⟩
  · rw [hb]
    exact hsorted.sublist ((List.filter_sublist _).trans (List.take_sublist k rows))
  · rw [hp, buildRows, filter_retry_filterMap, buildRowsAux_positions,
      countP_added_filterMap, hb, List.range_eq_range']

/-- C2 witness: on the concrete tie input the positions enumerate 0..n-1 in
consumption order. -/
theorem consumption_order_and_positions_witness :
    (buildRows 7 99 (mineLoop cfg0 0 tieRows (initLoopState cfg0)).processed).filterMap
      (fun r => r.posInBlock) =
      List.range (mineLoop cfg0 0 tieRows (initLoopState cfg0)).blockTxs.length :=
  (consumption_order_and_positions cfg0 0 99 7 tieRows (by decide)).2.2

/-- C3: after any prefix of the database-operation trace of one tick — the
state a reader sees at any moment, and the state a crashed-and-restarted
processor recovers, since an open transaction is discarded — the durable
database state equals either the state before the tick or the state after
the completed tick; no intermediate state is ever durable or visible. -/
theorem tick_crash_atomicity (cfg : Cfg) (inp : TickInput) (c : DBConn) (k : Nat) :
    (runOps c ((tickOps cfg inp).take k)).durable = c.durable ∨
    (runOps c ((tickOps cfg inp).take k)).durable =
      (runOps c (tickOps cfg inp)).durable :=
  runOps_durable_take (tickOps cfg inp) c (tickOps_commit_le_one cfg inp) k

/-- An accepted transaction that passes the size check is admitted to the
block when it is the only fetched transaction. -/
theorem mineLoop_singleton_accepted (cfg : Cfg) (prev : Int) (tx : PendingTx)
    (m : List Nat)
    (hout : tx.outcome = TxOutcome.executed ExecStatus.accepted m)
    (hsz : ¬(cfg.maxBlockSize < (initLoopState cfg).blockSize +
      tx.payload.length + cfg.txEmptyLength)) :
    (mineLoop cfg prev [tx] (initLoopState cfg)).blockTxs = [tx] := by
  have hadded : addedToBlockB cfg.excludeRejected tx.outcome = true := by
    simp [addedToBlockB, hout]
  have hstatus : statusOf tx.outcome = TermStatus.accepted := by
    simp [statusOf, hout]
  simp only [mineLoop, if_neg hsz, hout, hadded, hstatus]
  split <;> simp [mineLoop, addedToBlockB, initLoopState]

/-- C6 (code bug): the claim — and config.ts's own documentation of
VPROC_MAXBLOCKSIZE as "the maximum size of a block (in bytes)" — bounds the
packed BYTE size of every block, but the admission check charges
`unprocessedTx.payload.length`, the payload's UTF-16 code-unit count, which
undercounts the packed UTF-8 encoding for non-ASCII payloads.  With the
default budget of 1000000, a single accepted transaction whose payload is
999000 copies of U+00E9 is charged 999273 ≤ 1000000 and admitted, yet the
emitted block packs to 1998273 bytes — nearly twice the budget.  (The v1
revision charged the true packed tx.data.length.) -/
theorem packed_size_budget_violation :
    cfg0.blockEmptyLength + txChargedSize cfg0 overweightTx ≤ cfg0.maxBlockSize ∧
    (mineLoop cfg0 0 [overweightTx] (initLoopState cfg0)).blockTxs =
      [overweightTx] ∧
    packedBlockSize cfg0 [overweightTx] = 1998273 ∧
    cfg0.maxBlockSize < packedBlockSize cfg0 [overweightTx] := by
  have hpay : overweightTx.payload = overweightPayload := rfl
  have hlen : overweightPayload.length = 999000 := by
    rw [overweightPayload, List.length_replicate]
  have hbytes : utf8ByteLength overweightPayload = 1998000 := by
    have h1 : overweightPayload.map utf8UnitBytes =
        List.replicate 999000 (utf8UnitBytes 233) := by
      rw [overweightPayload, List.map_replicate]
    have h2 : utf8UnitBytes 233 = 2 := by norm_num [utf8UnitBytes]
    rw [utf8ByteLength, h1, h2, List.sum_replicate, smul_eq_mul]
  have hpacked : packedBlockSize cfg0 [overweightTx] = 1998273 := by
    rw [packedBlockSize, List.map_cons, List.map_nil, List.sum_cons,
      List.sum_nil, txPackedSize, hpay, hbytes]
    decide
  have hsz : ¬(cfg0.maxBlockSize < (initLoopState cfg0).blockSize +
      overweightTx.payload.length + cfg0.txEmptyLength) := by
    rw [hpay, hlen]
    decide
  refine ⟨?_, ?_, hpacked, ?_⟩
  · rw [txChargedSize, hpay, hlen]
    decide
  · exact mineLoop_singleton_accepted cfg0 0 overweightTx [79, 75] rfl hsz
  · rw [hpacked]
    decide

end Validana
